import Mathlib

/-!
Verification of the adaptive-precision floor/ceiling evaluator
`_eval_floor_ceil` from `src/sage/functions/other.py`.

The Python function is embedded shallowly:

* the external Interval Arithmetic Provider (`RealIntervalField`) is an
  oracle parameter `enc : V → ℤ → ℕ → Except EncErr Enclosure` mapping the
  current expression, the integer guess and the working precision to either
  an interval enclosure of `x - guess` or an exception (`RIF(y)` can raise
  `TypeError`, which the source catches, or any other exception, which it
  does not);
* the external simplification collaborator
  (`x.full_simplify().canonicalize_radical()`) is an oracle parameter
  `simpl : V → V`;
* interval endpoints and diameters are rationals (the `float(...)`
  conversion of the diameter is treated as exact, and the literal `1e-6`
  as the rational `1/1000000`);
* machine integers are `ℤ`, bit counts are `ℕ`.

The `while attempts:` loop is written as a fuel-indexed recursion
`loopGoAux`; the fuel is bounded below by the measure `loopMeasure`, which
every non-terminating iteration strictly decreases (`stepFn_measure`), so
the out-of-fuel case is provably unreachable and the recursion computes
exactly the iterations of the source loop.
-/

namespace SageFloorCeil

/-- The `method` argument of `_eval_floor_ceil`: the string literal
"floor" or "ceil". -/
inductive Method where
  | floor
  | ceil
deriving DecidableEq

/-- `getattr(v, method)()` for a real number `v`: the floor or ceiling of
an interval endpoint, an exact integer. -/
def applyMethod : Method → ℚ → ℤ
  | Method.floor, q => ⌊q⌋
  | Method.ceil, q => ⌈q⌉

/-- Exceptions surfaced to the caller of `_eval_floor_ceil`. -/
inductive PyErr where
  /-- the `ValueError` raised by the polymorphic floor/ceil method of
  infinity and NaN objects (message: Calling ceil() on infinity or NaN). -/
  | domainError
  /-- the `ValueError` raised when the attempt budget runs out; `prec` is
  the `RIF.precision()` printed in the message. -/
  | precisionExhausted (m : Method) (prec : ℕ)
  /-- any other exception propagating uncaught through the routine. -/
  | otherError
deriving DecidableEq

/-- Exceptions the enclosure construction `RIF(y)` can raise: the source
catches exactly `TypeError`; anything else propagates. -/
inductive EncErr where
  | typeError
  | otherError
deriving DecidableEq

/-- An interval enclosure produced by the provider: the two endpoints read
via `lower()` / `upper()`, and the result of `absolute_diameter()`, which
either reports as infinite (`is_infinity()`) or as the finite value
`diam`.  For an honest provider `diam = upper - lower`; the algorithm
never checks this, so the model does not either. -/
structure Enclosure where
  lower : ℚ
  upper : ℚ
  diam_inf : Bool
  diam : ℚ
deriving DecidableEq

/-- Possible outcomes of `_eval_floor_ceil`. -/
inductive Result (V : Type) where
  /-- an exact `Integer`. -/
  | ints (n : ℤ)
  /-- the element-wise numpy result, kept in the native numeric type. -/
  | arr (l : List ℚ)
  /-- `BuiltinFunction.__call__(self, SR(x))`: the unevaluated expression. -/
  | uneval (x : V)
  /-- a raised exception. -/
  | err (e : PyErr)
deriving DecidableEq

/-- The mutable locals of the source loop: the current expression `x`
(reassigned by the one simplification round), `guess`, `bits`, `attempts`,
`need_to_simplify`, and the precision of the most recently constructed
`RealIntervalField` (what `RIF.precision()` returns when the final
`ValueError` is raised). -/
structure LoopState (V : Type) where
  x : V
  guess : ℤ
  bits : ℕ
  attempts : ℕ
  need_to_simplify : Bool
  rifPrec : ℕ
deriving DecidableEq

/-- One loop iteration either leaves the loop with a result or continues
with an updated state. -/
inductive StepOut (V : Type) where
  | done (r : Result V)
  | next (st : LoopState V)
deriving DecidableEq

/-- The quantity `int(diam.log2())` of line 253: the external interval
field computes the base-2 logarithm of the diameter (modelled as the
exact real logarithm), and the builtin `int(...)` — in-source Python —
truncates it toward zero.  The branch using it runs only for diameters
of at least 1, where the logarithm is nonnegative and truncation toward
zero is the floored base-2 logarithm. -/
def intLog2 (d : ℚ) : ℤ := Int.log 2 d

/-- The simplification threshold `1e-6` of the source, as an exact
rational (written with `mkRat` so that it evaluates by kernel reduction). -/
def simplifyThreshold : ℚ := mkRat 1 1000000

/-- `attempts -= 1` followed by the grace extension
`if not attempts and bits < target_bits: attempts = 1`. -/
def nextAttempts (attempts bits target_bits : ℕ) : ℕ :=
  if attempts - 1 = 0 ∧ bits < target_bits then 1 else attempts - 1

/-- `if self is floor: guess += b` / `else: guess += a` where
`a` is the floor/ceil of the lower endpoint and `b` that of the upper. -/
def guessIncrement (m : Method) (a b : ℤ) : ℤ :=
  match m with
  | Method.floor => b
  | Method.ceil => a

/-- The body of the `while attempts:` loop, lines 226-277 of
`src/sage/functions/other.py`, starting from the attempt decrement and
grace extension, through enclosure construction, the two escalation
branches, the convergence test, the guess update, and the simplification
round. -/
def stepFn {V : Type} (enc : V → ℤ → ℕ → Except EncErr Enclosure)
    (simpl : V → V) (m : Method) (target_bits : ℕ) (st : LoopState V) :
    StepOut V :=
  match enc st.x st.guess st.bits with
  | Except.error EncErr.typeError => StepOut.done (Result.uneval st.x)
  | Except.error EncErr.otherError => StepOut.done (Result.err PyErr.otherError)
  | Except.ok e =>
    if e.diam_inf then
      StepOut.next ⟨st.x, st.guess, st.bits * 4,
        nextAttempts st.attempts st.bits target_bits, st.need_to_simplify, st.bits⟩
    else if 1 ≤ e.diam then
      StepOut.next ⟨st.x, st.guess, st.bits + 32 + (intLog2 e.diam).toNat,
        nextAttempts st.attempts st.bits target_bits, st.need_to_simplify, st.bits⟩
    else if applyMethod m e.lower = applyMethod m e.upper then
      StepOut.done (Result.ints (applyMethod m e.lower + st.guess))
    else if st.need_to_simplify ∧ e.diam ≤ simplifyThreshold then
      StepOut.next ⟨simpl st.x,
        st.guess + guessIncrement m (applyMethod m e.lower) (applyMethod m e.upper),
        st.bits, nextAttempts st.attempts st.bits target_bits, false, st.bits⟩
    else
      StepOut.next ⟨st.x,
        st.guess + guessIncrement m (applyMethod m e.lower) (applyMethod m e.upper),
        st.bits * 2, nextAttempts st.attempts st.bits target_bits,
        st.need_to_simplify, st.bits⟩

/-- Termination measure for the loop: strictly decreases at every
continuing iteration (`stepFn_measure`). -/
def loopMeasure {V : Type} (target_bits : ℕ) (st : LoopState V) : ℕ :=
  2 * (target_bits - st.bits) + st.need_to_simplify.toNat + st.attempts

def nextAttempts_le {a bits t : ℕ} (ha : 0 < a) :
    nextAttempts a bits t ≤ a := by
  unfold nextAttempts
  split <;> omega

def nextAttempts_lt {a bits t : ℕ} (ha : 0 < a) (hbt : t ≤ bits) :
    nextAttempts a bits t < a := by
  unfold nextAttempts
  split <;> omega

/-- Full case analysis of a continuing iteration: exactly one of the four
`continue` paths of the source was taken. -/
def stepFn_next_cases {V : Type} {enc : V → ℤ → ℕ → Except EncErr Enclosure}
    {simpl : V → V} {m : Method} {target_bits : ℕ} {st st' : LoopState V}
    (h : stepFn enc simpl m target_bits st = StepOut.next st') :
    ∃ e, enc st.x st.guess st.bits = Except.ok e ∧
      ((e.diam_inf = true ∧
          st' = ⟨st.x, st.guess, st.bits * 4,
            nextAttempts st.attempts st.bits target_bits, st.need_to_simplify, st.bits⟩)
       ∨ (e.diam_inf = false ∧ 1 ≤ e.diam ∧
          st' = ⟨st.x, st.guess, st.bits + 32 + (intLog2 e.diam).toNat,
            nextAttempts st.attempts st.bits target_bits, st.need_to_simplify, st.bits⟩)
       ∨ (e.diam_inf = false ∧ e.diam < 1 ∧
          applyMethod m e.lower ≠ applyMethod m e.upper ∧
          st.need_to_simplify = true ∧ e.diam ≤ simplifyThreshold ∧
          st' = ⟨simpl st.x,
            st.guess + guessIncrement m (applyMethod m e.lower) (applyMethod m e.upper),
            st.bits, nextAttempts st.attempts st.bits target_bits, false, st.bits⟩)
       ∨ (e.diam_inf = false ∧ e.diam < 1 ∧
          applyMethod m e.lower ≠ applyMethod m e.upper ∧
          ¬(st.need_to_simplify = true ∧ e.diam ≤ simplifyThreshold) ∧
          st' = ⟨st.x,
            st.guess + guessIncrement m (applyMethod m e.lower) (applyMethod m e.upper),
            st.bits * 2, nextAttempts st.attempts st.bits target_bits,
            st.need_to_simplify, st.bits⟩)) := by
  unfold stepFn at h
  split at h
  · exact (StepOut.noConfusion h)
  · exact (StepOut.noConfusion h)
  · rename_i e heq
    refine ⟨e, heq, ?_⟩
    by_cases h1 : e.diam_inf
    · rw [if_pos h1] at h
      cases h
      exact Or.inl ⟨h1, rfl⟩
    · rw [if_neg h1] at h
      by_cases h2 : 1 ≤ e.diam
      · rw [if_pos h2] at h
        cases h
        exact Or.inr (Or.inl ⟨Bool.eq_false_iff.mpr h1 ▸ rfl, h2, rfl⟩)
      · rw [if_neg h2] at h
        by_cases h3 : applyMethod m e.lower = applyMethod m e.upper
        · rw [if_pos h3] at h
          exact (StepOut.noConfusion h)
        · rw [if_neg h3] at h
          by_cases h4 : st.need_to_simplify ∧ e.diam ≤ simplifyThreshold
          · rw [if_pos h4] at h
            cases h
            exact Or.inr (Or.inr (Or.inl
              ⟨by simp [h1], not_le.mp h2, h3, h4.1, h4.2, rfl⟩))
          · rw [if_neg h4] at h
            cases h
            refine Or.inr (Or.inr (Or.inr ⟨by simp [h1], not_le.mp h2, h3, ?_, rfl⟩))
            intro hc
            exact h4 ⟨hc.1, hc.2⟩

def stepFn_bits_pos {V : Type} {enc : V → ℤ → ℕ → Except EncErr Enclosure}
    {simpl : V → V} {m : Method} {target_bits : ℕ} {st st' : LoopState V}
    (hb : 0 < st.bits)
    (h : stepFn enc simpl m target_bits st = StepOut.next st') :
    0 < st'.bits := by
  obtain ⟨e, -, hc⟩ := stepFn_next_cases h
  rcases hc with ⟨-, rfl⟩ | ⟨-, -, rfl⟩ | ⟨-, -, -, -, -, rfl⟩ | ⟨-, -, -, -, rfl⟩ <;>
    simp <;> omega

def stepFn_measure {V : Type} {enc : V → ℤ → ℕ → Except EncErr Enclosure}
    {simpl : V → V} {m : Method} {target_bits : ℕ} {st st' : LoopState V}
    (hb : 0 < st.bits) (ha : 0 < st.attempts)
    (h : stepFn enc simpl m target_bits st = StepOut.next st') :
    loopMeasure target_bits st' < loopMeasure target_bits st := by
  have hA : nextAttempts st.attempts st.bits target_bits ≤ st.attempts :=
    nextAttempts_le ha
  obtain ⟨e, -, hc⟩ := stepFn_next_cases h
  rcases hc with ⟨-, rfl⟩ | ⟨-, -, rfl⟩ | ⟨-, -, -, hs, -, rfl⟩ | ⟨-, -, -, -, rfl⟩
  · rcases Nat.lt_or_ge st.bits target_bits with hbt | hbt
    · simp only [loopMeasure]
      omega
    · have := nextAttempts_lt ha hbt
      simp only [loopMeasure]
      omega
  · rcases Nat.lt_or_ge st.bits target_bits with hbt | hbt
    · simp only [loopMeasure]
      omega
    · have := nextAttempts_lt ha hbt
      simp only [loopMeasure]
      omega
  · simp only [loopMeasure, hs]
    simp only [Bool.toNat_true, Bool.toNat_false]
    omega
  · rcases Nat.lt_or_ge st.bits target_bits with hbt | hbt
    · simp only [loopMeasure]
      omega
    · have := nextAttempts_lt ha hbt
      simp only [loopMeasure]
      omega

/-- The `while attempts:` loop itself.  `n` is fuel, always at least the
measure of the state; the measure strictly decreases at every continuing
iteration, so the fuel never runs out (the out-of-fuel case is refuted
from its own hypotheses) and the recursion computes exactly the iterations
of the source loop.  When the guard `attempts` is zero the source raises
`ValueError("cannot compute ... using {} bits".format(..., RIF.precision()))`. -/
def loopGoAux {V : Type} (enc : V → ℤ → ℕ → Except EncErr Enclosure)
    (simpl : V → V) (m : Method) (target_bits : ℕ) :
    (n : ℕ) → (st : LoopState V) → 0 < st.bits →
      loopMeasure target_bits st ≤ n → Result V
  | 0, st, _, hn =>
    if h0 : st.attempts = 0 then Result.err (PyErr.precisionExhausted m st.rifPrec)
    else absurd hn (by unfold loopMeasure; omega)
  | n + 1, st, hb, hn =>
    if h0 : st.attempts = 0 then Result.err (PyErr.precisionExhausted m st.rifPrec)
    else
      match hs : stepFn enc simpl m target_bits st with
      | StepOut.done r => r
      | StepOut.next st' =>
        loopGoAux enc simpl m target_bits n st'
          (stepFn_bits_pos hb hs)
          (by
            have := stepFn_measure hb (Nat.pos_of_ne_zero h0) hs
            omega)

/-- The duck-typed classification the fast-path dispatcher performs on the
input, lines 177-192 of the source: the optional polymorphic
`x.floor()` / `x.ceil()` method (which may itself raise), the
`isinstance(x, integer_types)` test, the `isinstance(x, (float, complex))`
test together with the native `math.floor` / `math.ceil` payload, the
numpy-module test with the array payload, and the `s_parent(x) is SR`
test that initialises `need_to_simplify`. -/
structure FastDispatch (V : Type) where
  polymethod : Method → V → Option (Except PyErr ℤ)
  asPyInt : V → Option ℤ
  asPyNum : V → Option ℚ
  asNumpy : V → Option (List ℚ)
  isSR : V → Bool

/-- The loop state on entry: `guess = Integer(0)`, `bits = 32`,
`attempts = 5`, `need_to_simplify = (s_parent(x) is SR)`. -/
def initState {V : Type} (x : V) (sr : Bool) : LoopState V :=
  ⟨x, 0, 32, 5, sr, 0⟩

/-- `_eval_floor_ceil(self, x, method, bits=0)`: the fast-path dispatcher
followed by the adaptive precision loop.  `Integer(math.floor(x))` on a
machine float, and `numpy.floor` applied element-wise, are modelled from
the spec (the `math` and `numpy` primitives are external): the native
floor/ceiling primitive on the numeric payload. -/
def eval_floor_ceil {V : Type} (F : FastDispatch V)
    (enc : V → ℤ → ℕ → Except EncErr Enclosure) (simpl : V → V)
    (m : Method) (x : V) (bits : ℕ) : Result V :=
  match F.polymethod m x with
  | some (Except.ok n) => Result.ints n
  | some (Except.error e) => Result.err e
  | none =>
    match F.asPyInt x with
    | some n => Result.ints n
    | none =>
      match F.asPyNum x with
      | some q => Result.ints (applyMethod m q)
      | none =>
        match F.asNumpy x with
        | some l => Result.arr (l.map fun q => (applyMethod m q : ℚ))
        | none =>
          loopGoAux enc simpl m bits
            (loopMeasure bits (initState x (F.isSR x)))
            (initState x (F.isSR x))
            (by norm_num [initState])
            (Nat.le_refl _)

/-- `computeFloor(x, bits=0)` of the spec: `_eval_floor_ceil` with the
floor method. -/
def computeFloor {V : Type} (F : FastDispatch V)
    (enc : V → ℤ → ℕ → Except EncErr Enclosure) (simpl : V → V)
    (x : V) (bits : ℕ) : Result V :=
  eval_floor_ceil F enc simpl Method.floor x bits

/-- `computeCeiling(x, bits=0)` of the spec: `_eval_floor_ceil` with the
ceil method. -/
def computeCeiling {V : Type} (F : FastDispatch V)
    (enc : V → ℤ → ℕ → Except EncErr Enclosure) (simpl : V → V)
    (x : V) (bits : ℕ) : Result V :=
  eval_floor_ceil F enc simpl Method.ceil x bits

/-- A concrete value universe for exercising the routine, mirroring the
kinds of inputs the dispatcher distinguishes: the Infinity and NaN
objects, Python machine integers, machine floats, numpy arrays, and
opaque symbolic-ring expressions. -/
inductive SageVal where
  | posInf
  | nan
  | pyInt (n : ℤ)
  | pyFloat (q : ℚ)
  | npArray (l : List ℚ)
  | symbolic (n : ℕ)
deriving DecidableEq

/-- Modelled from the spec: the polymorphic surface of the concrete
values.  The floor/ceil methods of the Infinity and NaN objects (code
outside `src/`) raise `ValueError("Calling ceil() on infinity or NaN")`
immediately, per the doctest at lines 158-167 of the source and the
DomainError entry of the spec; Python ints, floats, numpy arrays and
symbolic expressions expose no such method and fall through to the
`isinstance` tests, which the remaining fields classify. -/
def sageFast : FastDispatch SageVal where
  polymethod := fun _ v =>
    match v with
    | SageVal.posInf => some (Except.error PyErr.domainError)
    | SageVal.nan => some (Except.error PyErr.domainError)
    | _ => none
  asPyInt := fun v => match v with | SageVal.pyInt n => some n | _ => none
  asPyNum := fun v => match v with | SageVal.pyFloat q => some q | _ => none
  asNumpy := fun v => match v with | SageVal.npArray l => some l | _ => none
  isSR := fun v => match v with | SageVal.symbolic _ => true | _ => false

/-- A test double for `x.full_simplify().canonicalize_radical()`: rewrites
a symbolic expression to a distinct one and fixes everything else. -/
def sageSimplify : SageVal → SageVal
  | SageVal.symbolic n => SageVal.symbolic (n + 1)
  | v => v

/-- A test-double provider whose enclosures never pin down a unique
integer: every request yields the interval [-1/4, 1/4], of diameter 1/2,
whose endpoints floor to distinct values. -/
def encStraddle : SageVal → ℤ → ℕ → Except EncErr Enclosure :=
  fun _ _ _ => Except.ok ⟨mkRat (-1) 4, mkRat 1 4, false, mkRat 1 2⟩

/-- A test-double provider returning an interval of diameter exactly
10⁻⁶ straddling 0, whose endpoints floor to distinct values. -/
def encMicro : SageVal → ℤ → ℕ → Except EncErr Enclosure :=
  fun _ _ _ => Except.ok ⟨mkRat (-1) 2000000, mkRat 1 2000000, false, mkRat 1 1000000⟩

/-- A test-double provider for which the original expression gets the
diameter-10⁻⁶ straddling enclosure, while every other value (in
particular the simplified expression) is not numerically convertible and
raises `TypeError`. -/
def encSimplifyThenFail : SageVal → ℤ → ℕ → Except EncErr Enclosure :=
  fun v _ _ =>
    match v with
    | SageVal.symbolic 0 => Except.ok ⟨mkRat (-1) 2000000, mkRat 1 2000000, false, mkRat 1 1000000⟩
    | _ => Except.error EncErr.typeError

/-- A test-double provider whose enclosure construction always raises
`TypeError` (the input is never numerically convertible). -/
def encNotNumeric : SageVal → ℤ → ℕ → Except EncErr Enclosure :=
  fun _ _ _ => Except.error EncErr.typeError

/-- A test-double provider reporting an enclosure of infinite diameter. -/
def encInfinite : SageVal → ℤ → ℕ → Except EncErr Enclosure :=
  fun _ _ _ => Except.ok ⟨0, 0, true, 0⟩

/-- A test-double provider returning the interval [1/4, 1/2], both of
whose endpoints have floor 0: the floor computation converges at once. -/
def encConverged : SageVal → ℤ → ℕ → Except EncErr Enclosure :=
  fun _ _ _ => Except.ok ⟨mkRat 1 4, mkRat 1 2, false, mkRat 1 4⟩

/-- A test-double provider returning the interval [0, 3] of diameter 3,
too wide to pin down a unique integer. -/
def encWide : SageVal → ℤ → ℕ → Except EncErr Enclosure :=
  fun _ _ _ => Except.ok ⟨0, 3, false, 3⟩

/-- A test-double provider whose enclosure construction raises an
exception other than `TypeError` (for instance a `ValueError`). -/
def encValueError : SageVal → ℤ → ℕ → Except EncErr Enclosure :=
  fun _ _ _ => Except.error EncErr.otherError

/-- A test-double provider returning an interval of diameter strictly
below 10⁻⁶ straddling 0, whose endpoints floor to distinct values. -/
def encTiny : SageVal → ℤ → ℕ → Except EncErr Enclosure :=
  fun _ _ _ => Except.ok ⟨mkRat (-1) 4000000, mkRat 1 4000000, false, mkRat 1 2000000⟩

theorem loopGoAux_of_exhausted {V : Type}
    {enc : V → ℤ → ℕ → Except EncErr Enclosure} {simpl : V → V}
    {m : Method} {target_bits : ℕ} {st : LoopState V}
    (h0 : st.attempts = 0) :
    ∀ n hb hn, loopGoAux enc simpl m target_bits n st hb hn =
      Result.err (PyErr.precisionExhausted m st.rifPrec) := by
  intro n hb hn
  cases n with
  | zero => simp [loopGoAux, h0]
  | succ k => simp [loopGoAux, h0]

theorem loopGoAux_of_done {V : Type}
    {enc : V → ℤ → ℕ → Except EncErr Enclosure} {simpl : V → V}
    {m : Method} {target_bits : ℕ} {st : LoopState V} {r : Result V}
    (hs : stepFn enc simpl m target_bits st = StepOut.done r)
    (h0 : st.attempts ≠ 0) :
    ∀ n hb hn, loopGoAux enc simpl m target_bits n st hb hn = r := by
  intro n hb hn
  cases n with
  | zero =>
    exfalso
    unfold loopMeasure at hn
    omega
  | succ k =>
    unfold loopGoAux
    rw [dif_neg h0]
    split
    · rename_i r2 heq
      rw [hs] at heq
      cases heq
      rfl
    · rename_i st2 heq
      rw [hs] at heq
      exact (StepOut.noConfusion heq)

theorem loopGoAux_of_next {V : Type}
    {enc : V → ℤ → ℕ → Except EncErr Enclosure} {simpl : V → V}
    {m : Method} {target_bits : ℕ} {st st' : LoopState V}
    (hs : stepFn enc simpl m target_bits st = StepOut.next st')
    (h0 : st.attempts ≠ 0) :
    ∀ n hb hn hb' hn',
      loopGoAux enc simpl m target_bits n st hb hn =
        loopGoAux enc simpl m target_bits (n - 1) st' hb' hn' := by
  intro n hb hn hb' hn'
  cases n with
  | zero =>
    exfalso
    unfold loopMeasure at hn
    omega
  | succ k =>
    show loopGoAux enc simpl m target_bits (k + 1) st hb hn =
      loopGoAux enc simpl m target_bits k st' hb' hn'
    conv_lhs => rw [loopGoAux]
    rw [dif_neg h0]
    split
    · rename_i r2 heq
      rw [hs] at heq
      exact (StepOut.noConfusion heq)
    · rename_i st2 heq
      rw [hs] at heq
      cases heq
      rfl

/-- Claim C1: in every iteration whose enclosure has finite diameter
below 1, equal endpoint floors/ceilings `a = b` make the algorithm
terminate with `a + guess`, unequal ones update the guess by `b` (floor
of the upper bound) for the floor method and by `a` (ceiling of the lower
bound) for the ceiling method, and no other kind of iteration (infinite
or at-least-unit diameter, in particular) ever changes the guess. -/
theorem claim1_guess_update {V : Type}
    (enc : V → ℤ → ℕ → Except EncErr Enclosure) (simpl : V → V)
    (m : Method) (target_bits : ℕ) (st : LoopState V) (e : Enclosure)
    (he : enc st.x st.guess st.bits = Except.ok e) :
    (e.diam_inf = false → e.diam < 1 →
      ((applyMethod m e.lower = applyMethod m e.upper →
          stepFn enc simpl m target_bits st =
            StepOut.done (Result.ints (applyMethod m e.lower + st.guess)))
        ∧ (applyMethod m e.lower ≠ applyMethod m e.upper →
          ∃ st', stepFn enc simpl m target_bits st = StepOut.next st' ∧
            st'.guess = st.guess +
              guessIncrement m (applyMethod m e.lower) (applyMethod m e.upper))
        ∧ (st.attempts ≠ 0 → applyMethod m e.lower = applyMethod m e.upper →
          ∀ n hb hn, loopGoAux enc simpl m target_bits n st hb hn =
            Result.ints (applyMethod m e.lower + st.guess))))
    ∧ (∀ st', stepFn enc simpl m target_bits st = StepOut.next st' →
        st'.guess ≠ st.guess →
        e.diam_inf = false ∧ e.diam < 1 ∧
          applyMethod m e.lower ≠ applyMethod m e.upper) := by
  constructor
  · intro hinf hlt
    have hn1 : ¬(1 ≤ e.diam) := not_le.mpr hlt
    refine ⟨?_, ?_, ?_⟩
    · intro hab
      simp [stepFn, he, hinf, hn1, hab]
    · intro hab
      by_cases hc : st.need_to_simplify ∧ e.diam ≤ simplifyThreshold
      · exact ⟨⟨simpl st.x,
          st.guess + guessIncrement m (applyMethod m e.lower) (applyMethod m e.upper),
          st.bits, nextAttempts st.attempts st.bits target_bits, false, st.bits⟩,
          by simp [stepFn, he, hinf, hn1, hab, hc], rfl⟩
      · exact ⟨⟨st.x,
          st.guess + guessIncrement m (applyMethod m e.lower) (applyMethod m e.upper),
          st.bits * 2, nextAttempts st.attempts st.bits target_bits,
          st.need_to_simplify, st.bits⟩,
          by simp [stepFn, he, hinf, hn1, hab, hc], rfl⟩
    · intro h0 hab
      have hs : stepFn enc simpl m target_bits st =
          StepOut.done (Result.ints (applyMethod m e.lower + st.guess)) := by
        simp [stepFn, he, hinf, hn1, hab]
      exact loopGoAux_of_done hs h0
  · intro st' hstep hg
    obtain ⟨e0, he0, hc⟩ := stepFn_next_cases hstep
    rw [he] at he0
    injection he0 with he0
    subst he0
    rcases hc with ⟨h1, rfl⟩ | ⟨h1, h2, rfl⟩ | ⟨h1, h2, h3, h4, h5, rfl⟩ |
      ⟨h1, h2, h3, h4, rfl⟩
    · exact absurd rfl hg
    · exact absurd rfl hg
    · exact ⟨h1, h2, h3⟩
    · exact ⟨h1, h2, h3⟩

/-- Witness for C1: the converging enclosure [1/4, 1/2] terminates the
floor computation at 0, and the straddling enclosure [-1/4, 1/4] updates
the guess by the floor 0 of its upper bound. -/
theorem claim1_witness :
    stepFn encConverged sageSimplify Method.floor 0 (initState (SageVal.symbolic 0) true)
      = StepOut.done (Result.ints 0)
    ∧ ∃ st', stepFn encStraddle sageSimplify Method.floor 0 (initState (SageVal.symbolic 0) true)
        = StepOut.next st' ∧ st'.guess = 0 := by
  constructor
  · have h := ((claim1_guess_update encConverged sageSimplify Method.floor 0
        (initState (SageVal.symbolic 0) true) ⟨mkRat 1 4, mkRat 1 2, false, mkRat 1 4⟩
        rfl).1 rfl (by decide)).1 (by decide)
    rw [h]
    decide
  · obtain ⟨st', h1, h2⟩ := ((claim1_guess_update encStraddle sageSimplify Method.floor 0
        (initState (SageVal.symbolic 0) true) ⟨mkRat (-1) 4, mkRat 1 4, false, mkRat 1 2⟩
        rfl).1 rfl (by decide)).2.1 (by decide)
    refine ⟨st', h1, ?_⟩
    rw [h2]
    decide

/-- Counterexample to C2: within one invocation of the loop (target
precision 1000000, enclosures never converging), the grace extension
fires at two consecutive iterations: at states with `attempts = 1` and
`bits` of 512 and then 1024, the counter would hit zero but is reset to
1 both times, and the whole invocation runs the precision all the way to
1048576 rather than stopping after a single extra attempt. -/
theorem claim2_counterexample :
    stepFn encStraddle sageSimplify Method.floor 1000000
        (initState (SageVal.symbolic 0) true)
      = StepOut.next ⟨SageVal.symbolic 0, 0, 64, 4, true, 32⟩
    ∧ stepFn encStraddle sageSimplify Method.floor 1000000
        ⟨SageVal.symbolic 0, 0, 64, 4, true, 32⟩
      = StepOut.next ⟨SageVal.symbolic 0, 0, 128, 3, true, 64⟩
    ∧ stepFn encStraddle sageSimplify Method.floor 1000000
        ⟨SageVal.symbolic 0, 0, 128, 3, true, 64⟩
      = StepOut.next ⟨SageVal.symbolic 0, 0, 256, 2, true, 128⟩
    ∧ stepFn encStraddle sageSimplify Method.floor 1000000
        ⟨SageVal.symbolic 0, 0, 256, 2, true, 128⟩
      = StepOut.next ⟨SageVal.symbolic 0, 0, 512, 1, true, 256⟩
    ∧ stepFn encStraddle sageSimplify Method.floor 1000000
        ⟨SageVal.symbolic 0, 0, 512, 1, true, 256⟩
      = StepOut.next ⟨SageVal.symbolic 0, 0, 1024, 1, true, 512⟩
    ∧ stepFn encStraddle sageSimplify Method.floor 1000000
        ⟨SageVal.symbolic 0, 0, 1024, 1, true, 512⟩
      = StepOut.next ⟨SageVal.symbolic 0, 0, 2048, 1, true, 1024⟩
    ∧ eval_floor_ceil sageFast encStraddle sageSimplify Method.floor
        (SageVal.symbolic 0) 1000000
      = Result.err (PyErr.precisionExhausted Method.floor 1048576) := by
  refine ⟨by decide, by decide, by decide, by decide, by decide, by decide, by decide⟩

/-- Claim C2 as amended: an extra attempt is granted at EVERY iteration
in which the counter would reach zero while the working precision is
still below the requested bits, not exactly once per invocation; when
that condition fails the counter simply decrements. -/
theorem claim2_grace {V : Type}
    (enc : V → ℤ → ℕ → Except EncErr Enclosure) (simpl : V → V)
    (m : Method) (target_bits : ℕ) (st st' : LoopState V)
    (ha : 0 < st.attempts)
    (h : stepFn enc simpl m target_bits st = StepOut.next st') :
    (st.attempts = 1 ∧ st.bits < target_bits → st'.attempts = 1)
    ∧ (¬(st.attempts = 1 ∧ st.bits < target_bits) →
        st'.attempts = st.attempts - 1) := by
  obtain ⟨e, -, hc⟩ := stepFn_next_cases h
  have hatt : st'.attempts = nextAttempts st.attempts st.bits target_bits := by
    rcases hc with ⟨-, rfl⟩ | ⟨-, -, rfl⟩ | ⟨-, -, -, -, -, rfl⟩ | ⟨-, -, -, -, rfl⟩ <;> rfl
  rw [hatt]
  unfold nextAttempts
  constructor
  · intro hcond
    split <;> omega
  · intro hcond
    split <;> omega

/-- Witness for C2 (amended): at the state with one attempt left, 512
working bits and target 1000000, the grace extension resets the counter
to 1. -/
theorem claim2_witness :
    ∃ st' : LoopState SageVal,
      stepFn encStraddle sageSimplify Method.floor 1000000
          ⟨SageVal.symbolic 0, 0, 512, 1, true, 256⟩
        = StepOut.next st' ∧ st'.attempts = 1 := by
  refine ⟨⟨SageVal.symbolic 0, 0, 1024, 1, true, 512⟩, by decide, ?_⟩
  exact (claim2_grace encStraddle sageSimplify Method.floor 1000000
      ⟨SageVal.symbolic 0, 0, 512, 1, true, 256⟩
      ⟨SageVal.symbolic 0, 0, 1024, 1, true, 512⟩
      (by decide) (by decide)).1 ⟨rfl, by decide⟩

/-- Counterexample to C3: at a finite diameter of 3 the program adds
32 + int(log2 3) = 32 + 1 = 33 bits, escalating 32 to 65 bits, whereas
the claimed 32 + ⌈log2 3⌉ = 34 would escalate to 66: the builtin
`int(...)` of line 253 truncates the logarithm, it does not take its
ceiling, and the two differ at every diameter that is not an exact power
of two. -/
theorem claim3_counterexample :
    stepFn encWide sageSimplify Method.floor 0 (initState (SageVal.symbolic 0) true)
      = StepOut.next ⟨SageVal.symbolic 0, 0, 65, 4, true, 32⟩
    ∧ intLog2 3 = 1
    ∧ Int.clog 2 (3 : ℚ) = 2
    ∧ 32 + 32 + (Int.clog 2 (3 : ℚ)).toNat ≠ 65 := by
  have hnat : Nat.log 2 3 = 1 :=
    (Nat.log_eq_iff (Or.inl one_ne_zero)).mpr ⟨by norm_num, by norm_num⟩
  have hlog : intLog2 3 = 1 := by
    unfold intLog2
    rw [show (3 : ℚ) = ((3 : ℕ) : ℚ) from by norm_num, Int.log_natCast, hnat]
    rfl
  have hcnat : Nat.clog 2 3 = 2 := by
    have hle : Nat.clog 2 3 ≤ 2 :=
      (Nat.le_pow_iff_clog_le (by norm_num)).mp (by norm_num)
    have hgt : 1 < Nat.clog 2 3 :=
      (Nat.pow_lt_iff_lt_clog (by norm_num)).mp (by norm_num)
    omega
  have hclog : Int.clog 2 (3 : ℚ) = 2 := by
    rw [show (3 : ℚ) = ((3 : ℕ) : ℚ) from by norm_num, Int.clog_natCast, hcnat]
    rfl
  refine ⟨?_, hlog, hclog, by rw [hclog]; decide⟩
  have hstep : stepFn encWide sageSimplify Method.floor 0
      (initState (SageVal.symbolic 0) true)
      = StepOut.next
          ⟨SageVal.symbolic 0, 0, 32 + 32 + (intLog2 3).toNat, 4, true, 32⟩ := by
    simp [stepFn, encWide, initState, nextAttempts,
      show (1 : ℚ) ≤ 3 from by norm_num]
  rw [hstep, hlog]
  rfl

/-- Claim C3 as amended: on an infinite-diameter enclosure the working
precision is multiplied by 4, and on a finite diameter of at least 1 it
is increased by 32 + int(log2(diameter)) bits — the truncated, for such
diameters floored, base-2 logarithm, not its ceiling; in both cases the
iteration continues and the successor state is built without reading
the interval endpoints. -/
theorem claim3_escalation {V : Type}
    (enc : V → ℤ → ℕ → Except EncErr Enclosure) (simpl : V → V)
    (m : Method) (target_bits : ℕ) (st : LoopState V) (e : Enclosure)
    (he : enc st.x st.guess st.bits = Except.ok e) :
    (e.diam_inf = true →
      stepFn enc simpl m target_bits st = StepOut.next
        ⟨st.x, st.guess, st.bits * 4,
          nextAttempts st.attempts st.bits target_bits,
          st.need_to_simplify, st.bits⟩)
    ∧ (e.diam_inf = false → 1 ≤ e.diam →
      stepFn enc simpl m target_bits st = StepOut.next
        ⟨st.x, st.guess, st.bits + 32 + (intLog2 e.diam).toNat,
          nextAttempts st.attempts st.bits target_bits,
          st.need_to_simplify, st.bits⟩) := by
  constructor
  · intro hinf
    simp [stepFn, he, hinf]
  · intro hinf hge
    simp [stepFn, he, hinf, hge]

/-- Witness for C3 (amended): an infinite-diameter enclosure at 32 bits
escalates to 128 bits, and a diameter-3 enclosure escalates to
32 + 32 + int(log2 3) bits. -/
theorem claim3_witness :
    stepFn encInfinite sageSimplify Method.ceil 0 (initState (SageVal.symbolic 0) true)
      = StepOut.next ⟨SageVal.symbolic 0, 0, 128, 4, true, 32⟩
    ∧ stepFn encWide sageSimplify Method.floor 0 (initState (SageVal.symbolic 0) true)
      = StepOut.next
          ⟨SageVal.symbolic 0, 0, 32 + 32 + (intLog2 3).toNat, 4, true, 32⟩ := by
  constructor
  · exact (claim3_escalation encInfinite sageSimplify Method.ceil 0
      (initState (SageVal.symbolic 0) true) ⟨0, 0, true, 0⟩ rfl).1 rfl
  · exact (claim3_escalation encWide sageSimplify Method.floor 0
      (initState (SageVal.symbolic 0) true) ⟨0, 3, false, 3⟩ rfl).2 rfl (by decide)

/-- Counterexample to C4: a caller-requested budget of 500 bits is
exhausted, and the failure names 512 bits (the working precision of the
final interval field) rather than the requested 500. -/
theorem claim4_counterexample :
    eval_floor_ceil sageFast encStraddle sageSimplify Method.floor
        (SageVal.symbolic 0) 500
      = Result.err (PyErr.precisionExhausted Method.floor 512)
    ∧ (512 : ℕ) ≠ 500 := by
  exact ⟨by decide, by decide⟩

/-- Claim C4 as amended: whenever the attempt budget is exhausted the
loop returns the PrecisionExhausted failure (it cannot loop forever: the
recursion is total), and the precision named in the failure is
`RIF.precision()`, the number of bits of the final iteration's interval
field, which generally differs from the bits argument the caller
requested. -/
theorem claim4_exhaustion {V : Type}
    (enc : V → ℤ → ℕ → Except EncErr Enclosure) (simpl : V → V)
    (m : Method) (target_bits : ℕ) :
    (∀ n (st : LoopState V) hb hn, st.attempts = 0 →
      loopGoAux enc simpl m target_bits n st hb hn =
        Result.err (PyErr.precisionExhausted m st.rifPrec))
    ∧ (∀ st st' : LoopState V,
        stepFn enc simpl m target_bits st = StepOut.next st' →
        st'.rifPrec = st.bits) := by
  constructor
  · intro n st hb hn h0
    exact loopGoAux_of_exhausted h0 n hb hn
  · intro st st' h
    obtain ⟨e, -, hc⟩ := stepFn_next_cases h
    rcases hc with ⟨-, rfl⟩ | ⟨-, -, rfl⟩ | ⟨-, -, -, -, -, rfl⟩ | ⟨-, -, -, -, rfl⟩ <;> rfl

/-- Witness for C4 (amended): a state with zero attempts left and a last
interval field of 512 bits yields the PrecisionExhausted failure naming
512 bits. -/
theorem claim4_witness :
    loopGoAux encStraddle sageSimplify Method.floor 500 1
        ⟨SageVal.symbolic 0, 0, 1024, 0, true, 512⟩ (by decide) (by decide)
      = Result.err (PyErr.precisionExhausted Method.floor 512) :=
  (claim4_exhaustion encStraddle sageSimplify Method.floor 500).1 1
    ⟨SageVal.symbolic 0, 0, 1024, 0, true, 512⟩ (by decide) (by decide) rfl

/-- Counterexample to C5: with a symbolic input and an enclosure of
diameter exactly 10⁻⁶ — not strictly below it — the iteration still
applies the simplification (the expression is rewritten, the flag is
cleared, and the precision is not doubled), because the source compares
with `fdiam <= 1e-6`, not a strict inequality. -/
theorem claim5_counterexample :
    stepFn encMicro sageSimplify Method.floor 0 (initState (SageVal.symbolic 0) true)
      = StepOut.next ⟨SageVal.symbolic 1, 0, 32, 4, false, 32⟩
    ∧ sageSimplify (SageVal.symbolic 0) = SageVal.symbolic 1
    ∧ SageVal.symbolic 1 ≠ SageVal.symbolic 0
    ∧ ¬(mkRat 1 1000000 < simplifyThreshold)
    ∧ mkRat 1 1000000 ≤ simplifyThreshold := by
  exact ⟨by decide, rfl, by decide, by decide, by decide⟩

/-- Claim C5 as amended: in a continuing iteration the simplification
fires exactly when the flag is still set, the diameter is finite, below
1, at most 10⁻⁶ (inclusive comparison), and the endpoint floors/ceilings
disagree; when it fires, the expression is replaced by its simplified
form and the precision is not doubled that round; the flag is never
re-set once cleared (so the fallback runs at most once per invocation),
the expression is untouched when the flag is clear, and the flag is
initialised from the symbolic-ring membership test. -/
theorem claim5_simplification {V : Type}
    (enc : V → ℤ → ℕ → Except EncErr Enclosure) (simpl : V → V)
    (m : Method) (target_bits : ℕ) (st st' : LoopState V) (e : Enclosure)
    (he : enc st.x st.guess st.bits = Except.ok e)
    (h : stepFn enc simpl m target_bits st = StepOut.next st') :
    ((st.need_to_simplify = true ∧ st'.need_to_simplify = false) ↔
      (st.need_to_simplify = true ∧ e.diam_inf = false ∧ e.diam < 1
        ∧ applyMethod m e.lower ≠ applyMethod m e.upper
        ∧ e.diam ≤ simplifyThreshold))
    ∧ ((st.need_to_simplify = true ∧ st'.need_to_simplify = false) →
        st'.x = simpl st.x ∧ st'.bits = st.bits)
    ∧ (st'.need_to_simplify = true → st.need_to_simplify = true)
    ∧ (st.need_to_simplify = false → st'.x = st.x)
    ∧ (∀ (y : V) (sr : Bool), (initState y sr).need_to_simplify = sr) := by
  obtain ⟨e0, he0, hc⟩ := stepFn_next_cases h
  rw [he] at he0
  injection he0 with he0
  subst he0
  refine ⟨?_, ?_, ?_, ?_, fun y sr => rfl⟩
  · rcases hc with ⟨h1, rfl⟩ | ⟨h1, h2, rfl⟩ | ⟨h1, h2, h3, h4, h5, rfl⟩ |
      ⟨h1, h2, h3, h4, rfl⟩
    · dsimp only
      constructor
      · rintro ⟨ha1, ha2⟩
        rw [ha1] at ha2
        exact Bool.noConfusion ha2
      · rintro ⟨-, hinf, -⟩
        rw [h1] at hinf
        exact Bool.noConfusion hinf
    · dsimp only
      constructor
      · rintro ⟨ha1, ha2⟩
        rw [ha1] at ha2
        exact Bool.noConfusion ha2
      · rintro ⟨-, -, hlt, -⟩
        exact absurd h2 (not_le.mpr hlt)
    · dsimp only
      constructor
      · intro
        exact ⟨h4, h1, h2, h3, h5⟩
      · intro
        exact ⟨h4, rfl⟩
    · dsimp only
      constructor
      · rintro ⟨ha1, ha2⟩
        rw [ha1] at ha2
        exact Bool.noConfusion ha2
      · rintro ⟨ha1, -, -, -, ha5⟩
        exact absurd ⟨ha1, ha5⟩ h4
  · rcases hc with ⟨h1, rfl⟩ | ⟨h1, h2, rfl⟩ | ⟨h1, h2, h3, h4, h5, rfl⟩ |
      ⟨h1, h2, h3, h4, rfl⟩
    · rintro ⟨ha1, ha2⟩
      rw [ha1] at ha2
      exact Bool.noConfusion ha2
    · rintro ⟨ha1, ha2⟩
      rw [ha1] at ha2
      exact Bool.noConfusion ha2
    · intro
      exact ⟨rfl, rfl⟩
    · rintro ⟨ha1, ha2⟩
      rw [ha1] at ha2
      exact Bool.noConfusion ha2
  · rcases hc with ⟨h1, rfl⟩ | ⟨h1, h2, rfl⟩ | ⟨h1, h2, h3, h4, h5, rfl⟩ |
      ⟨h1, h2, h3, h4, rfl⟩
    · exact fun hh => hh
    · exact fun hh => hh
    · exact fun hh => Bool.noConfusion hh
    · exact fun hh => hh
  · rcases hc with ⟨h1, rfl⟩ | ⟨h1, h2, rfl⟩ | ⟨h1, h2, h3, h4, h5, rfl⟩ |
      ⟨h1, h2, h3, h4, rfl⟩
    · exact fun _ => rfl
    · exact fun _ => rfl
    · intro hf
      rw [h4] at hf
      exact Bool.noConfusion hf
    · exact fun _ => rfl

/-- Witness for C5 (amended): with a symbolic input and a diameter of
half of 10⁻⁶, the step rewrites the expression to its simplified form
and keeps the working precision at 32 bits. -/
theorem claim5_witness :
    ∃ st' : LoopState SageVal,
      stepFn encTiny sageSimplify Method.floor 0 (initState (SageVal.symbolic 0) true)
        = StepOut.next st' ∧ st'.x = sageSimplify (SageVal.symbolic 0) ∧ st'.bits = 32 := by
  refine ⟨⟨SageVal.symbolic 1, 0, 32, 4, false, 32⟩, by decide, ?_⟩
  have h := (claim5_simplification encTiny sageSimplify Method.floor 0
      (initState (SageVal.symbolic 0) true) ⟨SageVal.symbolic 1, 0, 32, 4, false, 32⟩
      ⟨mkRat (-1) 4000000, mkRat 1 4000000, false, mkRat 1 2000000⟩ rfl
      (by decide)).2.1 ⟨rfl, rfl⟩
  exact ⟨h.1, h.2⟩

/-- Claim C6: the working precision starts at 32 bits, and every
continuing iteration leaves it unchanged or increases it, by one of the
three updates of the source (times 4, times 2, or plus 32 + int(log2 d)
for a diameter d of at least 1). -/
theorem claim6_monotone {V : Type}
    (enc : V → ℤ → ℕ → Except EncErr Enclosure) (simpl : V → V)
    (m : Method) (target_bits : ℕ) :
    (∀ (y : V) (sr : Bool), (initState y sr).bits = 32)
    ∧ (∀ st st' : LoopState V,
        stepFn enc simpl m target_bits st = StepOut.next st' →
        st.bits ≤ st'.bits
        ∧ (st'.bits = st.bits ∨ st'.bits = st.bits * 4 ∨ st'.bits = st.bits * 2
            ∨ ∃ d : ℚ, 1 ≤ d ∧ st'.bits = st.bits + 32 + (intLog2 d).toNat)) := by
  refine ⟨fun y sr => rfl, ?_⟩
  intro st st' h
  obtain ⟨e, -, hc⟩ := stepFn_next_cases h
  rcases hc with ⟨-, rfl⟩ | ⟨-, h2, rfl⟩ | ⟨-, -, -, -, -, rfl⟩ | ⟨-, -, -, -, rfl⟩
  · exact ⟨by dsimp only; omega, Or.inr (Or.inl rfl)⟩
  · exact ⟨by dsimp only; omega, Or.inr (Or.inr (Or.inr ⟨e.diam, h2, rfl⟩))⟩
  · exact ⟨le_refl _, Or.inl rfl⟩
  · exact ⟨by dsimp only; omega, Or.inr (Or.inr (Or.inl rfl))⟩

/-- Witness for C6: the initial state has 32 bits and a doubling step
does not decrease the precision. -/
theorem claim6_witness :
    (initState (SageVal.symbolic 0) true).bits = 32
    ∧ (initState (SageVal.symbolic 0) true).bits ≤
        (⟨SageVal.symbolic 0, 0, 64, 4, true, 32⟩ : LoopState SageVal).bits := by
  have h := claim6_monotone encStraddle sageSimplify Method.floor 0
  exact ⟨h.1 (SageVal.symbolic 0) true,
    (h.2 (initState (SageVal.symbolic 0) true)
      ⟨SageVal.symbolic 0, 0, 64, 4, true, 32⟩ (by decide)).1⟩

/-- Counterexample to C7: when the first enclosure succeeds with a tiny
diameter, the single simplification round rewrites the expression, and
the next enclosure construction raises `TypeError`, the routine returns
the SIMPLIFIED expression wrapped unevaluated, not the original input. -/
theorem claim7_counterexample :
    eval_floor_ceil sageFast encSimplifyThenFail sageSimplify Method.floor
        (SageVal.symbolic 0) 0
      = Result.uneval (SageVal.symbolic 1)
    ∧ SageVal.symbolic 1 ≠ SageVal.symbolic 0 := by
  exact ⟨by decide, by decide⟩

/-- Claim C7 as amended: when enclosure construction raises `TypeError`,
the iteration immediately returns the CURRENT expression — the original
input unless the single simplification round already replaced it —
wrapped unevaluated; in particular an invocation whose very first
enclosure fails returns the original input unevaluated, as a normal
return, with no further refinement. -/
theorem claim7_not_numeric {V : Type} (F : FastDispatch V)
    (enc : V → ℤ → ℕ → Except EncErr Enclosure) (simpl : V → V)
    (m : Method) (target_bits : ℕ) :
    (∀ st : LoopState V, enc st.x st.guess st.bits = Except.error EncErr.typeError →
      stepFn enc simpl m target_bits st = StepOut.done (Result.uneval st.x))
    ∧ (∀ (x : V) (bits : ℕ), F.polymethod m x = none → F.asPyInt x = none →
        F.asPyNum x = none → F.asNumpy x = none →
        enc x 0 32 = Except.error EncErr.typeError →
        eval_floor_ceil F enc simpl m x bits = Result.uneval x) := by
  have hstep : ∀ (t : ℕ) (st : LoopState V),
      enc st.x st.guess st.bits = Except.error EncErr.typeError →
      stepFn enc simpl m t st = StepOut.done (Result.uneval st.x) := by
    intro t st hte
    unfold stepFn
    rw [hte]
  refine ⟨hstep target_bits, ?_⟩
  intro x bits h1 h2 h3 h4 h5
  have hs : stepFn enc simpl m bits (initState x (F.isSR x))
      = StepOut.done (Result.uneval x) := hstep bits (initState x (F.isSR x)) h5
  simp only [eval_floor_ceil, h1, h2, h3, h4]
  exact loopGoAux_of_done hs (by norm_num [initState]) _ _ _

/-- Witness for C7 (amended): a symbolic value that is never numerically
convertible comes back unevaluated and unchanged. -/
theorem claim7_witness :
    eval_floor_ceil sageFast encNotNumeric sageSimplify Method.ceil
      (SageVal.symbolic 7) 0 = Result.uneval (SageVal.symbolic 7) :=
  (claim7_not_numeric sageFast encNotNumeric sageSimplify Method.ceil 0).2
    (SageVal.symbolic 7) 0 rfl rfl rfl rfl rfl

/-- Claim C8: the polymorphic floor/ceil method of the Infinity and NaN
objects raises the domain error on the fast path, before the loop is
reached: whatever the interval provider and the simplifier do, and
whatever bit budget is requested, `computeCeiling(+infinity)` and
`computeFloor(NaN)` report the domain error immediately. -/
theorem claim8_domain_error :
    ∀ (enc : SageVal → ℤ → ℕ → Except EncErr Enclosure)
      (simpl : SageVal → SageVal) (bits : ℕ),
      computeCeiling sageFast enc simpl SageVal.posInf bits
        = Result.err PyErr.domainError
      ∧ computeFloor sageFast enc simpl SageVal.nan bits
        = Result.err PyErr.domainError :=
  fun _ _ _ => ⟨rfl, rfl⟩

/-- Claim C9: the fast-path dispatcher resolves native inputs without the
adaptive loop — the result does not depend on the interval provider or
the simplifier: a machine integer is returned unchanged as an exact
Integer; a machine float gets the native floor/ceil primitive and an
exact Integer result; a numpy array is mapped element-wise to an array
of the same length kept in the native numeric type. -/
theorem claim9_fast_path {V : Type} (F : FastDispatch V)
    (enc : V → ℤ → ℕ → Except EncErr Enclosure) (simpl : V → V)
    (m : Method) (x : V) (bits : ℕ) :
    (∀ n : ℤ, F.polymethod m x = none → F.asPyInt x = some n →
      eval_floor_ceil F enc simpl m x bits = Result.ints n)
    ∧ (∀ q : ℚ, F.polymethod m x = none → F.asPyInt x = none →
      F.asPyNum x = some q →
      eval_floor_ceil F enc simpl m x bits = Result.ints (applyMethod m q))
    ∧ (∀ l : List ℚ, F.polymethod m x = none → F.asPyInt x = none →
      F.asPyNum x = none → F.asNumpy x = some l →
      eval_floor_ceil F enc simpl m x bits
        = Result.arr (l.map fun q => (applyMethod m q : ℚ))
      ∧ (l.map fun q => (applyMethod m q : ℚ)).length = l.length) := by
  refine ⟨?_, ?_, ?_⟩
  · intro n h1 h2
    simp only [eval_floor_ceil, h1, h2]
  · intro q h1 h2 h3
    simp only [eval_floor_ceil, h1, h2, h3]
  · intro l h1 h2 h3 h4
    refine ⟨by simp only [eval_floor_ceil, h1, h2, h3, h4], by simp⟩

/-- Witness for C9: the integer 7 is returned unchanged, the float 5/2
floors to the exact integer 2, and the array [3/2, -1/2] floors
element-wise to the float array [1, -1]. -/
theorem claim9_witness :
    eval_floor_ceil sageFast encNotNumeric sageSimplify Method.floor
        (SageVal.pyInt 7) 0 = Result.ints 7
    ∧ eval_floor_ceil sageFast encNotNumeric sageSimplify Method.floor
        (SageVal.pyFloat (mkRat 5 2)) 0 = Result.ints 2
    ∧ eval_floor_ceil sageFast encNotNumeric sageSimplify Method.floor
        (SageVal.npArray [mkRat 3 2, mkRat (-1) 2]) 0 = Result.arr [1, -1] := by
  refine ⟨?_, ?_, ?_⟩
  · exact (claim9_fast_path sageFast encNotNumeric sageSimplify Method.floor
      (SageVal.pyInt 7) 0).1 7 rfl rfl
  · have h := (claim9_fast_path sageFast encNotNumeric sageSimplify Method.floor
      (SageVal.pyFloat (mkRat 5 2)) 0).2.1 (mkRat 5 2) rfl rfl rfl
    rw [h]
    decide
  · have h := (claim9_fast_path sageFast encNotNumeric sageSimplify Method.floor
      (SageVal.npArray [mkRat 3 2, mkRat (-1) 2]) 0).2.2
      [mkRat 3 2, mkRat (-1) 2] rfl rfl rfl rfl
    rw [h.1]
    decide

/-- Claim C10: only `TypeError` from enclosure construction is recovered
(as the unevaluated CURRENT expression); any other exception propagates
uncaught; and the loop expression only ever changes by the one
simplification round, so a later `TypeError` wraps the simplified form. -/
theorem claim10_exception_policy {V : Type}
    (enc : V → ℤ → ℕ → Except EncErr Enclosure) (simpl : V → V)
    (m : Method) (target_bits : ℕ) :
    (∀ st : LoopState V, enc st.x st.guess st.bits = Except.error EncErr.otherError →
      stepFn enc simpl m target_bits st = StepOut.done (Result.err PyErr.otherError))
    ∧ (∀ st : LoopState V, enc st.x st.guess st.bits = Except.error EncErr.typeError →
      stepFn enc simpl m target_bits st = StepOut.done (Result.uneval st.x))
    ∧ (∀ st st' : LoopState V,
        stepFn enc simpl m target_bits st = StepOut.next st' →
        st'.x = st.x ∨ (st'.x = simpl st.x ∧ st.need_to_simplify = true
          ∧ st'.need_to_simplify = false)) := by
  refine ⟨?_, ?_, ?_⟩
  · intro st hte
    unfold stepFn
    rw [hte]
  · intro st hte
    unfold stepFn
    rw [hte]
  · intro st st' h
    obtain ⟨e, -, hc⟩ := stepFn_next_cases h
    rcases hc with ⟨-, rfl⟩ | ⟨-, -, rfl⟩ | ⟨-, -, -, h4, -, rfl⟩ | ⟨-, -, -, -, rfl⟩
    · exact Or.inl rfl
    · exact Or.inl rfl
    · exact Or.inr ⟨rfl, h4, rfl⟩
    · exact Or.inl rfl

/-- Witness for C10: a `ValueError`-style failure from the provider
propagates as an error, while a `TypeError` is recovered as the
unevaluated expression. -/
theorem claim10_witness :
    stepFn encValueError sageSimplify Method.floor 0 (initState (SageVal.symbolic 0) true)
      = StepOut.done (Result.err PyErr.otherError)
    ∧ stepFn encNotNumeric sageSimplify Method.floor 0 (initState (SageVal.symbolic 0) true)
      = StepOut.done (Result.uneval (SageVal.symbolic 0)) := by
  constructor
  · exact (claim10_exception_policy encValueError sageSimplify Method.floor 0).1
      (initState (SageVal.symbolic 0) true) rfl
  · exact (claim10_exception_policy encNotNumeric sageSimplify Method.floor 0).2.1
      (initState (SageVal.symbolic 0) true) rfl

end SageFloorCeil
